import Mathlib

/-!
Verification of the chunked parallel download engine in `src/axsyncpy2.py`.

The Python source is shallowly embedded below.  The local filesystem is a
function from paths to optional byte contents (bytes are modelled as `Nat`,
Python ints being unbounded and byte values fitting in `Nat`).  The HTTP
server is an environment: a function from the requested byte range to the
response it produces; the engine is deterministic relative to that
environment.  Concurrency in `download_file_multithread` is modelled by
running every submitted fetch task (the thread pool executes every submitted
future; `as_completed` only changes observation order, and the part files
written by distinct fetchers are distinct paths, so the filesystem outcome is
order-independent and is represented by iterating the fetches in ordinal
order).
-/

/-- A filesystem: maps a path to the bytes stored there, `none` when the path
does not exist. -/
def FS : Type := String → Option (List Nat)

/-- Creating/truncating a file and writing `v` to it (`open(p, 'wb')` followed
by writes). -/
def fsWrite (fs : FS) (p : String) (v : List Nat) : FS :=
  fun q => if q = p then some v else fs q

/-- `os.remove(p)`. -/
def fsRemove (fs : FS) (p : String) : FS :=
  fun q => if q = p then none else fs q

/-- A filesystem with no files. -/
def emptyFS : FS := fun _ => none

/-- A response to a ranged GET: HTTP status and the delivered body bytes. -/
structure HttpResponse where
  status : Nat
  body : List Nat

/-- `response.raise_for_status()` raises exactly for client/server error
statuses (4xx/5xx), i.e. it passes iff `status < 400`. -/
def statusOk (s : Nat) : Bool := s < 400

/-- The result of the metadata probe `requests.head(url, ...)`:
`contentLength` is the parsed `content-length` header, `none` when the header
is absent (the code then uses the default `0`). -/
structure ProbeResponse where
  contentLength : Option Nat

/-- A streamed GET response as consumed by `download_file_single_thread`:
`iter_content` yields `chunks` in order and then raises iff `failsMidStream`
(a dropped connection mid-body). -/
structure StreamResponse where
  status : Nat
  chunks : List (List Nat)
  failsMidStream : Bool

/-- The temporary segment path built in `download_chunk`:
`part_file = f"{file_name}.part{part_number}"`. -/
def part_file_name (file_name : String) (part_number : Nat) : String :=
  file_name ++ ".part" ++ Nat.repr part_number

/-- Embedding of `download_chunk` (lines 33-45).  The ranged request for
`bytes=start-stop` is answered by the environment `server`; on a success
status the whole streamed body is written to the part file, with no check of
the byte count against the requested range; on an error status
`raise_for_status` raises before the part file is opened.  Returns the
updated filesystem and `some (part_file, part_number)` on success, `none`
when the call raised. -/
def download_chunk (fs : FS) (server : Int → Int → HttpResponse)
    (start stop : Int) (file_name : String) (part_number : Nat) :
    FS × Option (String × Nat) :=
  let response := server start stop
  if statusOk response.status then
    let part_file := part_file_name file_name part_number
    (fsWrite fs part_file response.body, some (part_file, part_number))
  else
    (fs, none)

/-- Helper for the range computation: `ranges[-1] = (ranges[-1][0], e)`
(line 60 mutates the last element's second component). -/
def replaceLastEnd : List (Int × Int) → Int → List (Int × Int)
  | [], _ => []
  | [r], e => [(r.1, e)]
  | r :: s :: rest, e => r :: replaceLastEnd (s :: rest) e

/-- Embedding of the range planner, lines 58-60 of
`download_file_multithread`:
`chunk_size = total_size // num_threads`,
`ranges = [(i*chunk_size, (i+1)*chunk_size - 1) for i in range(num_threads)]`,
`ranges[-1] = (ranges[-1][0], total_size - 1)`.
Range endpoints live in `Int` because the inclusive end can be `-1` for
empty ranges.  `num_threads ≥ 1` always holds at the call sites (the CLI
validates `--threads` with `positive_int`). -/
def planRanges (total_size num_threads : Nat) : List (Int × Int) :=
  let chunk_size : Nat := total_size / num_threads
  replaceLastEnd
    ((List.range num_threads).map
      (fun i : Nat => ((i : Int) * (chunk_size : Int),
                 ((i : Int) + 1) * (chunk_size : Int) - 1)))
    ((total_size : Int) - 1)

/-- The fetch loop of `download_file_multithread`: one `download_chunk` task
per range, ordinal `i` counting up from the given index.  Every submitted
task runs (the executor's shutdown waits for submitted futures), so the
filesystem effect is the composition of all the fetches. -/
def run_fetchers (server : Int → Int → HttpResponse) (file_path : String) :
    FS → List (Int × Int) → Nat → FS
  | fs, [], _ => fs
  | fs, r :: rest, i =>
    run_fetchers server file_path
      (download_chunk fs server r.1 r.2 file_path i).1 rest (i + 1)

/-- Whether every ranged fetch of a job succeeds; when it is `false` the
first `future.result()` for a failed fetch re-raises inside the
`as_completed` loop. -/
def fetchAllOk (server : Int → Int → HttpResponse)
    (ranges : List (Int × Int)) : Bool :=
  ranges.all (fun r => statusOk (server r.1 r.2).status)

/-- Embedding of `combine_parts`' loop body: with the destination already
opened (truncated), append each part's bytes to it and `os.remove` the
part. -/
def combine_parts_go (file_name : String) : FS → List String → FS
  | fs, [] => fs
  | fs, part :: rest =>
    combine_parts_go file_name
      (fsRemove
        (fsWrite fs file_name ((fs file_name).getD [] ++ (fs part).getD []))
        part)
      rest

/-- Embedding of `combine_parts` (lines 47-52): `open(file_name, 'wb')`
truncates the destination, then each part is appended in list order and its
temporary file removed. -/
def combine_parts (fs : FS) (file_name : String) (parts : List String) : FS :=
  combine_parts_go file_name (fsWrite fs file_name []) parts

/-- Embedding of `download_file_multithread` (lines 54-75).  The function
performs its own HEAD probe (line 55, same environment as the coordinator's
probe); `probe = none` models the HEAD request itself raising.  All fetch
tasks run; if all succeed, the parts list (indexed by `part_number`, so in
ordinal order) is assembled by `combine_parts`; if any fails, the first
failed `future.result()` raises and `combine_parts` is never reached.
Returns the final filesystem and whether the job succeeded. -/
def download_file_multithread (fs : FS) (server : Int → Int → HttpResponse)
    (probe : Option ProbeResponse) (file_path : String) (num_threads : Nat) :
    FS × Bool :=
  match probe with
  | none => (fs, false)
  | some pr =>
    let total_size := pr.contentLength.getD 0
    let ranges := planRanges total_size num_threads
    let fs1 := run_fetchers server file_path fs ranges 0
    if fetchAllOk server ranges then
      (combine_parts fs1 file_path
        ((List.range num_threads).map (part_file_name file_path)), true)
    else
      (fs1, false)

/-- Embedding of `download_file_single_thread` (lines 81-90): on a success
status the destination is opened (created/truncated) and the streamed chunks
are appended one by one; a mid-stream failure leaves whatever was already
written.  On an error status `raise_for_status` raises before the file is
opened. -/
def download_file_single_thread (fs : FS) (response : StreamResponse)
    (file_path : String) : FS × Bool :=
  if statusOk response.status then
    let fs1 := response.chunks.foldl
      (fun s ch => fsWrite s file_path ((s file_path).getD [] ++ ch))
      (fsWrite fs file_path [])
    (fs1, !response.failsMidStream)
  else
    (fs, false)

/-- The two transfer strategies of the coordinator. -/
inductive Strategy
  | singleStream
  | multiWorker
deriving DecidableEq

/-- The strategy decision of `download_file` (line 100):
`if total_size < 1024 * 1024` the file is downloaded in a single stream,
otherwise with `num_threads` workers. -/
def chooseStrategy (total_size : Nat) : Strategy :=
  if total_size < 1024 * 1024 then Strategy.singleStream
  else Strategy.multiWorker

/-- Embedding of `download_file` (lines 96-105): probe the size with a HEAD
request (`probe = none` models the request raising, in which case the
exception propagates and the job fails), default the missing
`content-length` header to `0`, then dispatch on the threshold. -/
def download_file (fs : FS) (probe : Option ProbeResponse)
    (stream : StreamResponse) (server : Int → Int → HttpResponse)
    (file_path : String) (num_threads : Nat) : FS × Bool :=
  match probe with
  | none => (fs, false)
  | some pr =>
    let total_size := pr.contentLength.getD 0
    match chooseStrategy total_size with
    | Strategy.singleStream => download_file_single_thread fs stream file_path
    | Strategy.multiWorker =>
      download_file_multithread fs server probe file_path num_threads

/-- Embedding of Python's `str.startswith`. -/
def str_starts_with (s pat : String) : Bool := pat.data.isPrefixOf s.data

/-- Embedding of Python's `str.endswith`. -/
def str_ends_with (s pat : String) : Bool := pat.data.isSuffixOf s.data

/-- The link filter of `download_directory` (line 116): a href is skipped
when it is falsy (empty/absent), starts with `'?'`, ends with `'/'`, or
equals `'../'`; otherwise it yields a download job. -/
def link_yields_job (href : String) : Bool :=
  !(href == "" || str_starts_with href "?" || str_ends_with href "/"
    || href == "../")

/-- The download jobs produced from a directory listing's hrefs, in listing
order (lines 114-123). -/
def download_directory_jobs (hrefs : List String) : List String :=
  hrefs.filter link_yields_job

/-- The bytes of `data` selected by the inclusive byte range `r`
(the slice a range-respecting server returns for `Range: bytes=r.1-r.2`). -/
def segmentOf (data : List Nat) (r : Int × Int) : List Nat :=
  (data.drop r.1.toNat).take (r.2 + 1 - r.1).toNat

/-- Splitting a byte sequence into segments along the planner's ranges. -/
def splitByRanges (data : List Nat) (num_threads : Nat) : List (List Nat) :=
  (planRanges data.length num_threads).map (segmentOf data)

/-- Assembling segments in ordinal order: ordered concatenation, exactly the
byte-level effect of `combine_parts` on the parts list. -/
def assembleSegments (segments : List (List Nat)) : List Nat :=
  segments.flatten

/-- Reading a digit string back as a number, continuing from accumulator
`a` (the left inverse of the decimal rendering used in part-file names). -/
def reprVal (l : List Char) (a : Nat) : Nat :=
  l.foldl (fun x c => 10 * x + (c.toNat - 48)) a

/-- A concrete 4-fetcher scenario: the server answers the range starting at
byte 100 with HTTP 403 and every other range with HTTP 200 and body `[1]`
(one of four concurrent fetchers fails, the other three succeed). -/
def serverOne403 : Int → Int → HttpResponse :=
  fun s _ => if s = 100 then ⟨403, []⟩ else ⟨200, [1]⟩

/-! ### Structure of the planned ranges -/

theorem replaceLastEnd_concat (l : List (Int × Int)) (r : Int × Int) (e : Int) :
    replaceLastEnd (l ++ [r]) e = l ++ [(r.1, e)] := by
  induction l with
  | nil => rfl
  | cons a t ih =>
    cases t with
    | nil => rfl
    | cons b t2 => simpa [replaceLastEnd] using ih

theorem planRanges_eq (t n : Nat) (hn : 1 ≤ n) :
    planRanges t n =
      ((List.range (n - 1)).map
        (fun i : Nat => ((i : Int) * ((t / n : Nat) : Int),
                   ((i : Int) + 1) * ((t / n : Nat) : Int) - 1)))
      ++ [(((n - 1 : Nat) : Int) * ((t / n : Nat) : Int), (t : Int) - 1)] := by
  obtain ⟨m, rfl⟩ : ∃ m, n = m + 1 := ⟨n - 1, by omega⟩
  simp only [planRanges, List.range_succ, List.map_append, List.map_cons,
    List.map_nil, replaceLastEnd_concat, Nat.add_sub_cancel]

theorem planRanges_length (t n : Nat) (hn : 1 ≤ n) :
    (planRanges t n).length = n := by
  rw [planRanges_eq t n hn]
  simp only [List.length_append, List.length_map, List.length_range,
    List.length_cons, List.length_nil]
  omega

theorem planRanges_getElem (t n i : Nat) (hn : 1 ≤ n) (hi : i < n) :
    (planRanges t n)[i]? =
      some ((i : Int) * ((t / n : Nat) : Int),
        if i = n - 1 then (t : Int) - 1
        else ((i : Int) + 1) * ((t / n : Nat) : Int) - 1) := by
  rw [planRanges_eq t n hn, List.getElem?_append]
  simp only [List.length_map, List.length_range]
  by_cases h : i < n - 1
  · rw [if_pos h, List.getElem?_map, List.getElem?_range h, if_neg (by omega)]
    rfl
  · have hieq : i = n - 1 := by omega
    rw [if_neg (by omega), hieq]
    simp

theorem chunk_mul_le (t n i : Nat) (hi : i + 1 ≤ n) : (i + 1) * (t / n) ≤ t :=
  le_trans (mul_le_mul_right' hi (t / n))
    (le_trans (le_of_eq (Nat.mul_comm n (t / n))) (Nat.div_mul_le_self t n))

theorem planRanges_index_bound {t n i : Nat} {r : Int × Int} (hn : 1 ≤ n)
    (h : (planRanges t n)[i]? = some r) : i < n := by
  by_contra hlt
  rw [List.getElem?_eq_none (by rw [planRanges_length t n hn]; omega)] at h
  exact Option.noConfusion h

theorem planRanges_no_overlap_aux (t n i i' : Nat) (r r' : Int × Int) (j : Int)
    (hn : 1 ≤ n) (hii' : i < i')
    (h : (planRanges t n)[i]? = some r) (h' : (planRanges t n)[i']? = some r')
    (hj2 : j ≤ r.2) (hj3 : r'.1 ≤ j) : False := by
  have hi' : i' < n := planRanges_index_bound hn h'
  have hi : i < n := planRanges_index_bound hn h
  rw [planRanges_getElem t n i hn hi] at h
  rw [planRanges_getElem t n i' hn hi'] at h'
  have hr := Option.some.inj h
  have hr' := Option.some.inj h'
  have hine : i ≠ n - 1 := by omega
  rw [if_neg hine] at hr
  have h2 : r.2 = ((i : Int) + 1) * ((t / n : Nat) : Int) - 1 := by
    rw [← hr]
  have h1 : r'.1 = ((i' : Int)) * ((t / n : Nat) : Int) := by rw [← hr']
  have hmul : (i + 1) * (t / n) ≤ i' * (t / n) := mul_le_mul_right' (by omega) _
  have hc1 : ((i : Int) + 1) * ((t / n : Nat) : Int) = (((i + 1) * (t / n) : Nat) : Int) := by
    push_cast; ring
  have hc2 : ((i' : Int)) * ((t / n : Nat) : Int) = ((i' * (t / n) : Nat) : Int) := by
    push_cast; ring
  rw [h2, hc1] at hj2
  rw [h1, hc2] at hj3
  omega

/-- C1 (amended): for every `totalSize ≥ 0` and `workerCount ≥ 1` the ranges
computed by the planner (lines 58-60) are contiguous (each range starts one
past the previous range's inclusive end), non-overlapping, and their union is
exactly `[0, totalSize-1]`; and there are exactly `workerCount` of them — in
every case, including `totalSize = 0`, where all `workerCount` ranges are
empty (the claim's "or 1 when totalSize == 0" fails: the code has no such
special case). -/
theorem planRanges_partition_C1 (t n : Nat) (hn : 1 ≤ n) :
    (planRanges t n).length = n
    ∧ (∀ i : Nat, ∀ r r' : Int × Int, (planRanges t n)[i]? = some r →
        (planRanges t n)[i + 1]? = some r' → r'.1 = r.2 + 1)
    ∧ (∀ j : Int,
        (∃ r ∈ planRanges t n, r.1 ≤ j ∧ j ≤ r.2) ↔ 0 ≤ j ∧ j ≤ (t : Int) - 1)
    ∧ (∀ i i' : Nat, ∀ r r' : Int × Int, ∀ j : Int,
        (planRanges t n)[i]? = some r → (planRanges t n)[i']? = some r' →
        r.1 ≤ j → j ≤ r.2 → r'.1 ≤ j → j ≤ r'.2 → i = i') := by
  refine ⟨planRanges_length t n hn, ?_, ?_, ?_⟩
  · -- contiguity
    intro i r r' h h'
    have hi1 : i + 1 < n := planRanges_index_bound hn h'
    rw [planRanges_getElem t n i hn (by omega)] at h
    rw [planRanges_getElem t n (i + 1) hn hi1] at h'
    have hr := Option.some.inj h
    have hr' := Option.some.inj h'
    have hine : i ≠ n - 1 := by omega
    rw [if_neg hine] at hr
    have h2 : r.2 = ((i : Int) + 1) * ((t / n : Nat) : Int) - 1 := by rw [← hr]
    have h1 : r'.1 = (((i + 1 : Nat)) : Int) * ((t / n : Nat) : Int) := by rw [← hr']
    rw [h1, h2]
    push_cast
    ring
  · -- union is exactly [0, t-1]
    intro j
    constructor
    · rintro ⟨r, hmem, hj1, hj2⟩
      obtain ⟨i, hi⟩ := List.mem_iff_getElem?.mp hmem
      have hin : i < n := planRanges_index_bound hn hi
      rw [planRanges_getElem t n i hn hin] at hi
      have hr := Option.some.inj hi
      have h1 : r.1 = ((i : Int)) * ((t / n : Nat) : Int) := by rw [← hr]
      have hnonneg : (0 : Int) ≤ r.1 := by
        rw [h1]; exact mul_nonneg (Int.natCast_nonneg i) (Int.natCast_nonneg _)
      refine ⟨le_trans hnonneg hj1, ?_⟩
      by_cases hlast : i = n - 1
      · have h2 : r.2 = (t : Int) - 1 := by rw [← hr, if_pos hlast]
        rw [h2] at hj2; exact hj2
      · have h2 : r.2 = ((i : Int) + 1) * ((t / n : Nat) : Int) - 1 := by
          rw [← hr, if_neg hlast]
        have hle : (i + 1) * (t / n) ≤ t := chunk_mul_le t n i (by omega)
        have hcast : ((i : Int) + 1) * ((t / n : Nat) : Int)
            = (((i + 1) * (t / n) : Nat) : Int) := by push_cast; ring
        rw [h2, hcast] at hj2
        omega
    · rintro ⟨hj0, hjt⟩
      lift j to Nat using hj0 with jn
      have hjn : jn < t := by omega
      by_cases hc0 : t / n = 0
      · refine ⟨(((n - 1 : Nat) : Int) * ((t / n : Nat) : Int), (t : Int) - 1),
          List.mem_iff_getElem?.mpr ⟨n - 1, ?_⟩, ?_, by omega⟩
        · rw [planRanges_getElem t n (n - 1) hn (by omega), if_pos rfl]
        · rw [hc0]; simp
      · have hA : jn / (t / n) * (t / n) ≤ jn := Nat.div_mul_le_self jn (t / n)
        have hB : jn < jn / (t / n) * (t / n) + (t / n) := by
          have hdm := Nat.div_add_mod jn (t / n)
          rw [Nat.mul_comm] at hdm
          have hm := Nat.mod_lt jn (Nat.pos_of_ne_zero hc0)
          omega
        by_cases hqn : jn / (t / n) < n - 1
        · refine ⟨(((jn / (t / n) : Nat) : Int) * ((t / n : Nat) : Int),
            (((jn / (t / n) : Nat) : Int) + 1) * ((t / n : Nat) : Int) - 1),
            List.mem_iff_getElem?.mpr ⟨jn / (t / n), ?_⟩, ?_, ?_⟩
          · rw [planRanges_getElem t n (jn / (t / n)) hn (by omega),
              if_neg (by omega)]
          · have : (((jn / (t / n) : Nat)) : Int) * ((t / n : Nat) : Int)
                = ((jn / (t / n) * (t / n) : Nat) : Int) := by push_cast; ring
            rw [this]; omega
          · have : (((jn / (t / n) : Nat) : Int) + 1) * ((t / n : Nat) : Int)
                = (((jn / (t / n) * (t / n) + (t / n)) : Nat) : Int) := by
              push_cast; ring
            rw [this]; omega
        · refine ⟨(((n - 1 : Nat) : Int) * ((t / n : Nat) : Int), (t : Int) - 1),
            List.mem_iff_getElem?.mpr ⟨n - 1, ?_⟩, ?_, by omega⟩
          · rw [planRanges_getElem t n (n - 1) hn (by omega), if_pos rfl]
          · have hmul : (n - 1) * (t / n) ≤ jn / (t / n) * (t / n) :=
              mul_le_mul_right' (by omega) _
            have : (((n - 1 : Nat)) : Int) * ((t / n : Nat) : Int)
                = (((n - 1) * (t / n) : Nat) : Int) := by push_cast; ring
            rw [this]; omega
  · -- non-overlapping
    intro i i' r r' j h h' hj1 hj2 hj3 hj4
    rcases Nat.lt_trichotomy i i' with hlt | heq | hgt
    · exact absurd (planRanges_no_overlap_aux t n i i' r r' j hn hlt h h' hj2 hj3) id
    · exact heq
    · exact absurd (planRanges_no_overlap_aux t n i' i r' r j hn hgt h' h hj4 hj1) id

/-- C1 counterexample: at `totalSize = 0` and `workerCount = 2` the planner
returns two (empty) ranges `[(0,-1), (0,-1)]`, not the single range the
claim asserts for `totalSize == 0`. -/
theorem planRanges_zero_size_counterexample :
    planRanges 0 2 = [(0, -1), (0, -1)] ∧ (planRanges 0 2).length ≠ 1 := by
  decide

/-- Witness for the amended C1 at `totalSize = 100`, `workerCount = 3`. -/
theorem planRanges_partition_C1_witness : (planRanges 100 3).length = 3 :=
  (planRanges_partition_C1 100 3 (by decide)).1

/-- C2: the planner computes `chunkSize = totalSize div workerCount` with
truncating division, assigns range `i = [i*chunkSize, (i+1)*chunkSize - 1]`
for `i` up to `workerCount - 2`, assigns the final range
`[(workerCount-1)*chunkSize, totalSize-1]` absorbing the remainder; and
`totalSize = 100`, `workerCount = 3` yields `[0,32], [33,65], [66,99]`. -/
theorem planRanges_formula_C2 (t n : Nat) (hn : 1 ≤ n) :
    (∀ i : Nat, i + 1 < n →
      (planRanges t n)[i]? =
        some ((i : Int) * ((t / n : Nat) : Int),
              ((i : Int) + 1) * ((t / n : Nat) : Int) - 1))
    ∧ (planRanges t n)[n - 1]? =
        some (((n - 1 : Nat) : Int) * ((t / n : Nat) : Int), (t : Int) - 1)
    ∧ planRanges 100 3 = [(0, 32), (33, 65), (66, 99)] := by
  refine ⟨?_, ?_, by decide⟩
  · intro i hi
    rw [planRanges_getElem t n i hn (by omega), if_neg (by omega)]
  · rw [planRanges_getElem t n (n - 1) hn (by omega), if_pos rfl]

/-- Witness for C2 at `totalSize = 100`, `workerCount = 3`. -/
theorem planRanges_formula_C2_witness :
    planRanges 100 3 = [(0, 32), (33, 65), (66, 99)] :=
  (planRanges_formula_C2 100 3 (by decide)).2.2

/-! ### Strategy threshold -/

/-- C3: the coordinator picks the single-stream strategy exactly when the
probed size is strictly below `1 MiB = 1_048_576` bytes and the multi-worker
strategy otherwise; at exactly `1_048_576` it picks multi-worker, and
`download_file` dispatches to the corresponding implementation. -/
theorem chooseStrategy_threshold_C3 (t : Nat) :
    (chooseStrategy t = Strategy.singleStream ↔ t < 1048576)
    ∧ chooseStrategy 1048576 = Strategy.multiWorker
    ∧ (∀ (fs : FS) (stream : StreamResponse) (server : Int → Int → HttpResponse)
        (p : String) (n : Nat), t < 1048576 →
        download_file fs (some ⟨some t⟩) stream server p n =
          download_file_single_thread fs stream p)
    ∧ (∀ (fs : FS) (stream : StreamResponse) (server : Int → Int → HttpResponse)
        (p : String) (n : Nat), 1048576 ≤ t →
        download_file fs (some ⟨some t⟩) stream server p n =
          download_file_multithread fs server (some ⟨some t⟩) p n) := by
  refine ⟨?_, by decide, ?_, ?_⟩
  · rw [chooseStrategy]
    constructor
    · intro h
      by_contra hno
      rw [if_neg (by omega)] at h
      exact Strategy.noConfusion h
    · intro h
      rw [if_pos (by omega)]
  · intro fs stream server p n ht
    show (match chooseStrategy t with
      | Strategy.singleStream => download_file_single_thread fs stream p
      | Strategy.multiWorker =>
          download_file_multithread fs server (some ⟨some t⟩) p n) = _
    rw [chooseStrategy, if_pos (by omega)]
  · intro fs stream server p n ht
    show (match chooseStrategy t with
      | Strategy.singleStream => download_file_single_thread fs stream p
      | Strategy.multiWorker =>
          download_file_multithread fs server (some ⟨some t⟩) p n) = _
    rw [chooseStrategy, if_neg (by omega)]

/-- Witness for C3: the spec's boundary scenarios, `500000` bytes is
single-stream and exactly `1048576` bytes is multi-worker. -/
theorem chooseStrategy_threshold_C3_witness :
    chooseStrategy 500000 = Strategy.singleStream
    ∧ chooseStrategy 1048576 = Strategy.multiWorker :=
  ⟨(chooseStrategy_threshold_C3 500000).1.mpr (by decide),
   (chooseStrategy_threshold_C3 1048576).2.1⟩

/-! ### Probe failure handling -/

/-- C7 (amended): when the probe response carries no `content-length` header
the coordinator treats the size as `0` and takes the single-stream path
without failing; (the unamended claim's other half is refuted separately:
when the probe request itself fails, the exception propagates and the job
fails). -/
theorem probe_no_content_length_C7 (fs : FS) (stream : StreamResponse)
    (server : Int → Int → HttpResponse) (p : String) (n : Nat) :
    download_file fs (some ⟨none⟩) stream server p n =
      download_file_single_thread fs stream p := rfl

/-- C7 counterexample: a failing probe request (`requests.head` raising) makes
`download_file` fail the job — the filesystem is untouched and the job is
reported failed — contradicting the claim that a failed probe does not fail
the job. -/
theorem probe_failure_counterexample :
    (download_file emptyFS none ⟨200, [[1]], false⟩
        (fun _ _ => ⟨200, [1]⟩) "d" 4).2 = false
    ∧ (download_file emptyFS none ⟨200, [[1]], false⟩
        (fun _ _ => ⟨200, [1]⟩) "d" 4).1 "d" = none :=
  ⟨rfl, rfl⟩

/-! ### Directory listing filter -/

/-- C8: a href in a directory listing yields a download job exactly when it
is non-empty, does not start with `'?'`, does not end with `'/'`, and is not
`'../'`; of `"../"`, `"?C=N;O=D"`, `"subdir/"`, `"file.txt"` only
`"file.txt"` yields a job. -/
theorem listing_filter_C8 :
    (∀ (links : List String) (s : String),
      s ∈ download_directory_jobs links ↔
        s ∈ links ∧ s ≠ "" ∧ str_starts_with s "?" = false
          ∧ str_ends_with s "/" = false ∧ s ≠ "../")
    ∧ download_directory_jobs ["../", "?C=N;O=D", "subdir/", "file.txt"]
        = ["file.txt"] := by
  refine ⟨?_, by decide⟩
  intro links s
  rw [download_directory_jobs, List.mem_filter, link_yields_job]
  simp only [Bool.not_eq_true', Bool.or_eq_false_iff, beq_eq_false_iff_ne,
    ne_eq, and_assoc]

/-- Witness for C8: `"file.txt"` passes the filter on the spec's listing. -/
theorem listing_filter_C8_witness :
    "file.txt" ∈ download_directory_jobs ["../", "?C=N;O=D", "subdir/", "file.txt"] :=
  (listing_filter_C8.1 ["../", "?C=N;O=D", "subdir/", "file.txt"] "file.txt").mpr
    (by decide)

/-! ### Decimal rendering of part numbers

`part_file_name` embeds Python's `f"{file_name}.part{part_number}"`, whose
decimal rendering of `part_number` is `Nat.repr`.  The lemmas below recover
the value of a rendered numeral (hence injectivity of the rendering, so part
paths of distinct ordinals are distinct) and show every rendered character
is a decimal digit (so the `.partN` suffix contains no path separator). -/

theorem digitChar_val (m : Nat) (h : m < 10) :
    (Nat.digitChar m).toNat - 48 = m := by
  interval_cases m <;> rfl

theorem digitChar_isDigit (m : Nat) (h : m < 10) :
    (Nat.digitChar m).isDigit = true := by
  interval_cases m <;> decide

theorem reprVal_cons (c : Char) (l : List Char) (a : Nat) :
    reprVal (c :: l) a = reprVal l (10 * a + (c.toNat - 48)) := rfl

theorem toDigitsCore_val (fuel : Nat) : ∀ (n : Nat) (acc : List Char) (a : Nat),
    n < fuel →
    ∃ k, reprVal (Nat.toDigitsCore 10 fuel n acc) a
          = reprVal acc (a * 10 ^ k + n) ∧ n < 10 ^ k := by
  induction fuel with
  | zero => intro n acc a h; omega
  | succ f ih =>
    intro n acc a h
    simp only [Nat.toDigitsCore]
    by_cases h0 : n / 10 = 0
    · rw [if_pos h0]
      refine ⟨1, ?_, by omega⟩
      rw [reprVal_cons, digitChar_val (n % 10) (Nat.mod_lt n (by norm_num))]
      have : 10 * a + n % 10 = a * 10 ^ 1 + n := by
        rw [pow_one]; omega
      rw [this]
    · rw [if_neg h0]
      have hn0 : 0 < n := by omega
      have hstep : n / 10 < f := by
        have := Nat.div_lt_self hn0 (by norm_num : (1 : Nat) < 10)
        omega
      obtain ⟨k, hk, hlt⟩ := ih (n / 10) (Nat.digitChar (n % 10) :: acc) a hstep
      refine ⟨k + 1, ?_, ?_⟩
      · rw [hk, reprVal_cons, digitChar_val (n % 10) (Nat.mod_lt n (by norm_num))]
        have : 10 * (a * 10 ^ k + n / 10) + n % 10 = a * 10 ^ (k + 1) + n := by
          rw [pow_succ]
          have e : 10 * (a * (10 ^ k) + n / 10) + n % 10
              = a * (10 ^ k * 10) + (10 * (n / 10) + n % 10) := by ring
          rw [e]
          omega
        rw [this]
      · rw [pow_succ]
        omega

theorem reprVal_repr (n : Nat) : reprVal (Nat.repr n).data 0 = n := by
  obtain ⟨k, hk, _⟩ :=
    toDigitsCore_val (n + 1) n [] 0 (Nat.lt_succ_self n)
  have hdata : (Nat.repr n).data = Nat.toDigitsCore 10 (n + 1) n [] := rfl
  rw [hdata, hk]
  simp [reprVal]

theorem repr_injective {m n : Nat} (h : Nat.repr m = Nat.repr n) : m = n := by
  have hv := congrArg (fun s : String => reprVal s.data 0) h
  simpa [reprVal_repr] using hv

theorem toDigitsCore_chars (fuel : Nat) : ∀ (n : Nat) (acc : List Char)
    (c : Char), c ∈ Nat.toDigitsCore 10 fuel n acc →
    c ∈ acc ∨ c.isDigit = true := by
  induction fuel with
  | zero => intro n acc c h; exact Or.inl h
  | succ f ih =>
    intro n acc c h
    simp only [Nat.toDigitsCore] at h
    by_cases h0 : n / 10 = 0
    · rw [if_pos h0] at h
      rcases List.mem_cons.mp h with hc | hc
      · exact Or.inr (hc ▸ digitChar_isDigit (n % 10) (Nat.mod_lt n (by norm_num)))
      · exact Or.inl hc
    · rw [if_neg h0] at h
      rcases ih (n / 10) (Nat.digitChar (n % 10) :: acc) c h with hc | hc
      · rcases List.mem_cons.mp hc with hc2 | hc2
        · exact Or.inr (hc2 ▸ digitChar_isDigit (n % 10) (Nat.mod_lt n (by norm_num)))
        · exact Or.inl hc2
      · exact Or.inr hc

theorem repr_chars_digit (n : Nat) (c : Char) (h : c ∈ (Nat.repr n).data) :
    c.isDigit = true := by
  have hdata : (Nat.repr n).data = Nat.toDigitsCore 10 (n + 1) n [] := rfl
  rw [hdata] at h
  rcases toDigitsCore_chars (n + 1) n [] c h with hc | hc
  · exact absurd hc (List.not_mem_nil c)
  · exact hc

/-! ### Part-file paths -/

theorem part_file_name_ne_dest (p : String) (i : Nat) :
    part_file_name p i ≠ p := by
  intro h
  have hl := congrArg String.length h
  rw [part_file_name, String.length_append, String.length_append] at hl
  have h5 : (".part" : String).length = 5 := rfl
  omega

theorem part_file_name_inj (p : String) {i j : Nat}
    (h : part_file_name p i = part_file_name p j) : i = j := by
  rw [part_file_name, part_file_name] at h
  have hd := congrArg String.data h
  rw [String.data_append, String.data_append, String.data_append,
    String.data_append] at hd
  have h2 := List.append_cancel_left hd
  have hv := congrArg (fun l => reprVal l 0) h2
  simp only at hv
  calc i = reprVal (Nat.repr i).data 0 := (reprVal_repr i).symm
    _ = reprVal (Nat.repr j).data 0 := hv
    _ = j := reprVal_repr j

theorem part_file_suffix_no_sep (i : Nat) (c : Char)
    (h : c ∈ (".part" ++ Nat.repr i).data) : c ≠ '/' := by
  rw [String.data_append] at h
  rcases List.mem_append.mp h with hc | hc
  · intro he
    rw [he] at hc
    exact absurd hc (by decide)
  · intro he
    have := repr_chars_digit i c hc
    rw [he] at this
    exact absurd this (by decide)

/-! ### Filesystem update lemmas -/

theorem fsWrite_same (fs : FS) (p : String) (v : List Nat) :
    fsWrite fs p v p = some v := by
  simp [fsWrite]

theorem fsWrite_other (fs : FS) (p : String) (v : List Nat) (q : String)
    (h : q ≠ p) : fsWrite fs p v q = fs q := by
  simp [fsWrite, h]

theorem fsRemove_other (fs : FS) (p q : String) (h : q ≠ p) :
    fsRemove fs p q = fs q := by
  simp [fsRemove, h]

/-! ### The fetch loop -/

theorem download_chunk_fst (fs : FS) (server : Int → Int → HttpResponse)
    (s e : Int) (p : String) (i : Nat) :
    (download_chunk fs server s e p i).1 =
      if statusOk (server s e).status then
        fsWrite fs (part_file_name p i) (server s e).body
      else fs := by
  by_cases h : statusOk (server s e).status <;> simp [download_chunk, h]

theorem run_fetchers_untouched (server : Int → Int → HttpResponse)
    (p k : String) (hk : ∀ j : Nat, k ≠ part_file_name p j) :
    ∀ (l : List (Int × Int)) (i : Nat) (fs : FS),
      run_fetchers server p fs l i k = fs k := by
  intro l
  induction l with
  | nil => intro i fs; rfl
  | cons r rest ih =>
    intro i fs
    rw [run_fetchers, ih (i + 1), download_chunk_fst]
    by_cases h : statusOk (server r.1 r.2).status
    · rw [if_pos h, fsWrite_other _ _ _ _ (hk i)]
    · rw [if_neg h]

theorem run_fetchers_keeps (server : Int → Int → HttpResponse)
    (p k : String) :
    ∀ (l : List (Int × Int)) (i : Nat) (fs : FS), fs k ≠ none →
      run_fetchers server p fs l i k ≠ none := by
  intro l
  induction l with
  | nil => intro i fs h; exact h
  | cons r rest ih =>
    intro i fs h
    rw [run_fetchers]
    apply ih
    rw [download_chunk_fst]
    by_cases hok : statusOk (server r.1 r.2).status
    · rw [if_pos hok]
      by_cases hkp : k = part_file_name p i
      · rw [hkp, fsWrite_same]; exact Option.noConfusion
      · rw [fsWrite_other _ _ _ _ hkp]; exact h
    · rw [if_neg hok]; exact h

theorem run_fetchers_writes (server : Int → Int → HttpResponse) (p : String) :
    ∀ (l : List (Int × Int)) (j i : Nat) (fs : FS) (r : Int × Int),
      l[j]? = some r → statusOk (server r.1 r.2).status = true →
      run_fetchers server p fs l i (part_file_name p (i + j)) ≠ none := by
  intro l
  induction l with
  | nil =>
    intro j i fs r h
    rw [List.getElem?_nil] at h
    exact absurd h (by simp)
  | cons a rest ih =>
    intro j i fs r hj hok
    cases j with
    | zero =>
      rw [List.getElem?_cons_zero] at hj
      have hra := Option.some.inj hj
      subst hra
      rw [run_fetchers]
      apply run_fetchers_keeps
      rw [download_chunk_fst, if_pos hok]
      show fsWrite fs (part_file_name p i) (server a.1 a.2).body
        (part_file_name p i) ≠ none
      rw [fsWrite_same]
      exact Option.noConfusion
    | succ j2 =>
      rw [List.getElem?_cons_succ] at hj
      have harith : i + (j2 + 1) = (i + 1) + j2 := by omega
      rw [run_fetchers, harith]
      exact ih j2 (i + 1) _ r hj hok

/-! ### Assembly -/

theorem combine_parts_go_dest (fname : String) :
    ∀ (parts : List String) (fs : FS), (∀ q ∈ parts, q ≠ fname) →
      fs fname ≠ none → combine_parts_go fname fs parts fname ≠ none := by
  intro parts
  induction parts with
  | nil => intro fs _ hf; exact hf
  | cons a rest ih =>
    intro fs h hf
    rw [combine_parts_go]
    apply ih
    · intro q hq
      exact h q (List.mem_cons_of_mem a hq)
    · rw [fsRemove_other _ _ _ (Ne.symm (h a (List.mem_cons_self a rest))),
        fsWrite_same]
      exact Option.noConfusion

theorem combine_parts_dest (fs : FS) (fname : String) (parts : List String)
    (h : ∀ q ∈ parts, q ≠ fname) :
    combine_parts fs fname parts fname ≠ none := by
  rw [combine_parts]
  apply combine_parts_go_dest fname parts _ h
  rw [fsWrite_same]
  exact Option.noConfusion

/-! ### Claims about chunk fetches -/

/-- C9: a successful chunk fetch with destination path `p` and ordinal `i`
stores its segment at exactly the string `p ++ ".part" ++ i` (with `i`
rendered in decimal): that path is returned, the response body is written
there, no other path changes, and the appended suffix contains no `'/'`, so
the part file is created alongside the destination file in the same
directory rather than in a separate temporary area. -/
theorem chunk_storage_location_C9 (fs : FS) (server : Int → Int → HttpResponse)
    (s e : Int) (p : String) (i : Nat)
    (hok : statusOk (server s e).status = true) :
    (download_chunk fs server s e p i).2 = some (p ++ ".part" ++ Nat.repr i, i)
    ∧ (download_chunk fs server s e p i).1 (p ++ ".part" ++ Nat.repr i)
        = some (server s e).body
    ∧ (∀ q : String, q ≠ p ++ ".part" ++ Nat.repr i →
        (download_chunk fs server s e p i).1 q = fs q)
    ∧ (∀ c ∈ (".part" ++ Nat.repr i).data, c ≠ '/') := by
  refine ⟨?_, ?_, ?_, fun c hc => part_file_suffix_no_sep i c hc⟩
  · simp [download_chunk, hok, part_file_name]
  · simp [download_chunk, hok, part_file_name, fsWrite]
  · intro q hq
    simp [download_chunk, hok, part_file_name, fsWrite,
      show q ≠ p ++ ".part" ++ Nat.repr i from hq]

/-- Witness for C9: ordinal 12 of destination `"f"` is stored at
`"f.part12"`. -/
theorem chunk_storage_location_C9_witness :
    (download_chunk emptyFS (fun _ _ => ⟨200, [7]⟩) 0 0 "f" 12).2
      = some ("f" ++ ".part" ++ Nat.repr 12, 12) :=
  (chunk_storage_location_C9 emptyFS (fun _ _ => ⟨200, [7]⟩) 0 0 "f" 12
    (by decide)).1

/-- C10: a chunk fetch succeeds exactly for success-status responses
(`status < 400`), and on success it writes exactly the bytes of the response
body to the part file — there is no check that the number of bytes equals
`stop - start + 1`, so a server that ignores the Range header and returns
the whole resource yields a part file holding the entire resource body. -/
theorem chunk_body_written_C10 (fs : FS) (server : Int → Int → HttpResponse)
    (s e : Int) (p : String) (i : Nat) :
    ((download_chunk fs server s e p i).2 ≠ none ↔
      statusOk (server s e).status = true)
    ∧ (statusOk (server s e).status = true →
        (download_chunk fs server s e p i).1 (part_file_name p i)
          = some (server s e).body) := by
  constructor
  · by_cases h : statusOk (server s e).status <;> simp [download_chunk, h]
  · intro h
    simp [download_chunk, h, fsWrite]

/-- Witness for C10: the requested range is `[0, 1]` (2 bytes) but the
server answers 200 with the full 5-byte resource; the stored segment is the
entire 5-byte body. -/
theorem chunk_body_written_C10_witness :
    (download_chunk emptyFS (fun _ _ => ⟨200, [9, 9, 9, 9, 9]⟩) 0 1 "f" 0).1
      (part_file_name "f" 0) = some [9, 9, 9, 9, 9] :=
  (chunk_body_written_C10 emptyFS (fun _ _ => ⟨200, [9, 9, 9, 9, 9]⟩)
    0 1 "f" 0).2 (by decide)

/-! ### Failure of one fetcher in a multi-worker job -/

/-- C4 (amended): when any chunk fetcher of a multi-worker job fails, the
job fails without any retry (each range is fetched exactly once), assembly
is never invoked and the destination path is untouched — but the temporary
part files of the fetchers that succeeded are NOT cleaned up: they remain on
disk after the job has failed. -/
theorem fetcher_failure_C4 (fs : FS) (server : Int → Int → HttpResponse)
    (pr : ProbeResponse) (p : String) (n : Nat)
    (hfail : fetchAllOk server (planRanges (pr.contentLength.getD 0) n)
      = false) :
    (download_file_multithread fs server (some pr) p n).2 = false
    ∧ (download_file_multithread fs server (some pr) p n).1 p = fs p
    ∧ (∀ (j : Nat) (r : Int × Int),
        (planRanges (pr.contentLength.getD 0) n)[j]? = some r →
        statusOk (server r.1 r.2).status = true →
        (download_file_multithread fs server (some pr) p n).1
          (part_file_name p j) ≠ none) := by
  have heq : download_file_multithread fs server (some pr) p n =
      (run_fetchers server p fs (planRanges (pr.contentLength.getD 0) n) 0,
        false) := by
    simp [download_file_multithread, hfail]
  rw [heq]
  refine ⟨rfl, ?_, ?_⟩
  · exact run_fetchers_untouched server p p
      (fun j => (part_file_name_ne_dest p j).symm) _ 0 fs
  · intro j r hj hok
    have h := run_fetchers_writes server p
      (planRanges (pr.contentLength.getD 0) n) j 0 fs r hj hok
    rwa [Nat.zero_add] at h

/-- C4 counterexample: four fetchers, the one for range `[100,199]` gets
HTTP 403; the job fails and no destination file is created, but the part
files of the three successful fetchers are still on disk — they are not
cleaned up, contrary to the claim. -/
theorem fetcher_failure_no_cleanup_counterexample :
    (download_file_multithread emptyFS serverOne403 (some ⟨some 400⟩) "f" 4).2
      = false
    ∧ (download_file_multithread emptyFS serverOne403 (some ⟨some 400⟩) "f" 4).1
        "f" = none
    ∧ (download_file_multithread emptyFS serverOne403 (some ⟨some 400⟩) "f" 4).1
        "f.part0" = some [1]
    ∧ (download_file_multithread emptyFS serverOne403 (some ⟨some 400⟩) "f" 4).1
        "f.part2" = some [1]
    ∧ (download_file_multithread emptyFS serverOne403 (some ⟨some 400⟩) "f" 4).1
        "f.part3" = some [1] := by
  decide

/-- Witness for the amended C4 at the concrete one-of-four-fails scenario. -/
theorem fetcher_failure_C4_witness :
    (download_file_multithread emptyFS serverOne403 (some ⟨some 400⟩) "f" 4).2
      = false :=
  (fetcher_failure_C4 emptyFS serverOne403 ⟨some 400⟩ "f" 4 (by decide)).1

/-! ### Destination integrity -/

/-- C6 (amended, multi-worker path): every segment of a multi-worker job is
written to its own location — part paths of distinct ordinals are distinct
and all differ from the destination path — and the destination is written
only after every fetcher has succeeded: on any fetch failure it is untouched
(and the job fails), and on full success assembly creates it (and the job
succeeds).  Single-stream jobs, by contrast, write directly and
incrementally to the destination, so a mid-stream failure leaves partial
content there (refuted separately). -/
theorem multiworker_dest_C6 (fs : FS) (server : Int → Int → HttpResponse)
    (pr : ProbeResponse) (p : String) (n : Nat) :
    (∀ i j : Nat, i ≠ j → part_file_name p i ≠ part_file_name p j)
    ∧ (∀ i : Nat, part_file_name p i ≠ p)
    ∧ (fetchAllOk server (planRanges (pr.contentLength.getD 0) n) = false →
        (download_file_multithread fs server (some pr) p n).1 p = fs p
        ∧ (download_file_multithread fs server (some pr) p n).2 = false)
    ∧ (fetchAllOk server (planRanges (pr.contentLength.getD 0) n) = true →
        (download_file_multithread fs server (some pr) p n).1 p ≠ none
        ∧ (download_file_multithread fs server (some pr) p n).2 = true) := by
  refine ⟨?_, part_file_name_ne_dest p, ?_, ?_⟩
  · intro i j hij h
    exact hij (part_file_name_inj p h)
  · intro hfail
    have heq : download_file_multithread fs server (some pr) p n =
        (run_fetchers server p fs (planRanges (pr.contentLength.getD 0) n) 0,
          false) := by
      simp [download_file_multithread, hfail]
    rw [heq]
    exact ⟨run_fetchers_untouched server p p
      (fun j => (part_file_name_ne_dest p j).symm) _ 0 fs, rfl⟩
  · intro hok
    have heq : download_file_multithread fs server (some pr) p n =
        (combine_parts
          (run_fetchers server p fs (planRanges (pr.contentLength.getD 0) n) 0)
          p ((List.range n).map (part_file_name p)), true) := by
      simp [download_file_multithread, hok]
    rw [heq]
    refine ⟨?_, rfl⟩
    apply combine_parts_dest
    intro q hq
    obtain ⟨j, _, rfl⟩ := List.mem_map.mp hq
    exact part_file_name_ne_dest p j

/-- C6 counterexample: a single-stream job (probed size 10 bytes) whose
stream drops after delivering `[1, 2]` fails, yet the destination file
exists and holds the partial bytes `[1, 2]` — partially-written state is
left at the destination path by the engine. -/
theorem single_stream_partial_dest_counterexample :
    (download_file emptyFS (some ⟨some 10⟩) ⟨200, [[1, 2]], true⟩
        (fun _ _ => ⟨200, []⟩) "d" 4).2 = false
    ∧ (download_file emptyFS (some ⟨some 10⟩) ⟨200, [[1, 2]], true⟩
        (fun _ _ => ⟨200, []⟩) "d" 4).1 "d" = some [1, 2] := by
  decide

/-- Witness for the amended C6 at the one-of-four-fails scenario: the
destination is untouched when a fetcher fails. -/
theorem multiworker_dest_C6_witness :
    (download_file_multithread emptyFS serverOne403 (some ⟨some 400⟩) "g" 4).1
      "g" = emptyFS "g"
    ∧ (download_file_multithread emptyFS serverOne403 (some ⟨some 400⟩) "g" 4).2
      = false :=
  (multiworker_dest_C6 emptyFS serverOne403 ⟨some 400⟩ "g" 4).2.2.1 (by decide)

/-! ### Split / assemble round trip -/

theorem segmentOf_mid (data : List Nat) (c i : Nat) :
    segmentOf data ((i : Int) * (c : Int), ((i : Int) + 1) * (c : Int) - 1)
      = (data.drop (i * c)).take c := by
  rw [segmentOf]
  have h1 : ((i : Int) * (c : Int)).toNat = i * c := by
    rw [← Int.natCast_mul, Int.toNat_natCast]
  have h2 : (((i : Int) + 1) * (c : Int) - 1 + 1 - (i : Int) * (c : Int))
      = (c : Int) := by ring
  rw [h1, h2, Int.toNat_natCast]

theorem join_take_aux (data : List Nat) (c : Nat) :
    ∀ k : Nat,
      ((List.range k).map (fun i : Nat => (data.drop (i * c)).take c)).flatten
        = data.take (k * c) := by
  intro k
  induction k with
  | zero => simp
  | succ m ih =>
    rw [List.range_succ, List.map_append, List.flatten_append, ih]
    simp only [List.map_cons, List.map_nil, List.flatten_cons,
      List.flatten_nil, List.append_nil]
    rw [Nat.succ_mul, List.take_add]

/-- C5: splitting any byte sequence into segments along the planner's ranges
and then assembling the segments in ordinal order (which is how
`download_file_multithread` assembles: the parts list is indexed by
`part_number`, independent of fetch completion order) reproduces the
original byte sequence exactly, for every worker count ≥ 1. -/
theorem split_assemble_roundtrip_C5 (data : List Nat) (n : Nat)
    (hn : 1 ≤ n) : assembleSegments (splitByRanges data n) = data := by
  rw [assembleSegments, splitByRanges, planRanges_eq data.length n hn,
    List.map_append, List.flatten_append, List.map_map]
  have hmid : ∀ i ∈ List.range (n - 1),
      (segmentOf data ∘ fun i : Nat =>
        ((i : Int) * ((data.length / n : Nat) : Int),
         ((i : Int) + 1) * ((data.length / n : Nat) : Int) - 1)) i
      = (data.drop (i * (data.length / n))).take (data.length / n) := by
    intro i _
    exact segmentOf_mid data (data.length / n) i
  rw [List.map_congr_left hmid, join_take_aux data (data.length / n) (n - 1)]
  simp only [List.map_cons, List.map_nil, List.flatten_cons,
    List.flatten_nil, List.append_nil]
  have hlast : segmentOf data
      (((n - 1 : Nat) : Int) * ((data.length / n : Nat) : Int),
        (data.length : Int) - 1)
      = data.drop ((n - 1) * (data.length / n)) := by
    rw [segmentOf]
    have h1 : ((((n - 1 : Nat)) : Int) * ((data.length / n : Nat) : Int)).toNat
        = (n - 1) * (data.length / n) := by
      rw [← Int.natCast_mul, Int.toNat_natCast]
    have h2 : ((data.length : Int) - 1 + 1
        - (((n - 1 : Nat)) : Int) * ((data.length / n : Nat) : Int)).toNat
        = data.length - (n - 1) * (data.length / n) := by
      rw [← Int.natCast_mul]
      omega
    rw [h1, h2]
    apply List.take_of_length_le
    rw [List.length_drop]
  rw [hlast]
  exact List.take_append_drop _ data

/-- Witness for C5: a 5-byte sequence split for 3 workers and reassembled in
ordinal order is reproduced exactly. -/
theorem split_assemble_roundtrip_C5_witness :
    assembleSegments (splitByRanges [1, 2, 3, 4, 5] 3) = [1, 2, 3, 4, 5] :=
  split_assemble_roundtrip_C5 [1, 2, 3, 4, 5] 3 (by decide)
